import Mathlib

/-!
Verification of the kvk_url_finder engine (src/kvk_url_finder/kvk_engine.py).

The definitions below are shallow embeddings of the Python source: pandas
data frames become lists of records (NaN cells become `Option` fields, since
pandas comparisons with NaN are false and logical operators treat NaN as
false), Python sets built from lists become first-occurrence-deduplicated
lists, numeric values become `ℚ`/`Int`, timestamps and time deltas become
`Int`, and fallible operations return `Except`/`Option`.  The external
page-fetch capability (cbs_utils.web_scraping.UrlSearchStrings) and the
postal-code normalizer (cbs_utils.misc.standard_postcode) are third-party
boundaries and are passed in as parameters.
-/

namespace KvkEngine

/-- Keep the first occurrence of every element, dropping later duplicates.
Models building a Python set from a list together with taking
`list(the_set)[0]` as the first recorded value. -/
def dedupFirst {α : Type} [DecidableEq α] : List α → List α
  | [] => []
  | a :: l => a :: (dedupFirst l).filter (fun x => x ≠ a)

theorem mem_dedupFirst {α : Type} [DecidableEq α] (x : α) :
    ∀ l : List α, x ∈ dedupFirst l ↔ x ∈ l := by
  intro l
  induction l with
  | nil => simp [dedupFirst]
  | cons a t ih =>
    simp only [dedupFirst, List.mem_cons, List.mem_filter]
    constructor
    · rintro (rfl | ⟨hx, _⟩)
      · exact Or.inl rfl
      · exact Or.inr (ih.mp hx)
    · rintro (rfl | hx)
      · exact Or.inl rfl
      · by_cases hxa : x = a
        · exact Or.inl hxa
        · exact Or.inr ⟨ih.mpr hx, by simpa using hxa⟩

/-- Removal of all "." characters, modelling Python re.sub(r"\.", "", s). -/
def stripDots (s : String) : String := ⟨s.data.filter (fun c => c ≠ '.')⟩

/-- Conversion of a registration-number string to an integer after removing
dots, modelling int(re.sub(r"\.", "", kvk)); the regex source guarantees a
digit string, non-digit input is totalized to 0. -/
def parseKvk (s : String) : Int := Int.ofNat (((stripDots s).toNat?).getD 0)

/-- Lists of raw pattern matches found on a page, one list per search field
(postal code, registration number, tax number), as produced by the external
UrlSearchStrings capability or reconstructed from the URL registry. -/
structure UrlMatches where
  postcode : List String
  kvk : List String
  btw : List String
deriving DecidableEq, Repr

/-- Inputs of UrlCompanyRanking.get_ranking (kvk_engine.py lines 1781-1836):
the page-analysis result (None when scraping was disabled), the company's
valid postal codes (a set, modelled as a list), its registration number, the
already-computed distance and string-match values, the thresholds, the
maximum URL-shape score, and the parsed suffix/subdomain of the URL. -/
structure RankInput where
  url_analyse : Option UrlMatches
  company_postcodes : List String
  company_kvk_nummer : Int
  distance : ℚ
  string_match : ℚ
  threshold_distance : ℚ
  max_url_score : ℚ
  suffix : String
  subdomain : String
deriving DecidableEq, Repr

/-- Outputs of UrlCompanyRanking.get_ranking. -/
structure RankResult where
  postcode_set : List String
  kvk_set : List Int
  btw_set : List String
  has_postcode : Bool
  has_kvk_nummer : Bool
  has_btw_nummer : Bool
  btw_nummer : Option String
  url_match : ℚ
  url_rank : ℚ
  ranking : ℚ
deriving DecidableEq, Repr

/-- Embedding of UrlCompanyRanking.get_ranking (kvk_engine.py lines
1781-1836).  The parameter spp is the external postal-code normalizer
standard_postcode from cbs_utils. -/
def get_ranking (spp : String → String) (inp : RankInput) : RankResult :=
  let postcode_lijst := match inp.url_analyse with
    | some m => m.postcode
    | none => []
  let kvk_lijst := match inp.url_analyse with
    | some m => m.kvk
    | none => []
  let btw_lijst := match inp.url_analyse with
    | some m => m.btw
    | none => []
  let postcode_set := dedupFirst (postcode_lijst.map spp)
  let kvk_set := dedupFirst (kvk_lijst.map parseKvk)
  let btw_set := dedupFirst (btw_lijst.map stripDots)
  let pcMatch := decide (inp.company_postcodes ≠ []) &&
    inp.company_postcodes.any (fun p => decide (p ∈ postcode_set))
  let kvkMatch := decide (inp.company_kvk_nummer ∈ kvk_set)
  let hasBtw := decide (btw_set ≠ [])
  let ranking0 : ℚ := 0
  let ranking1 := if pcMatch then ranking0 + 3 else ranking0
  let ranking2 := if kvkMatch then ranking1 + 3 else ranking1
  let ranking3 := if hasBtw then ranking2 + 0 else ranking2
  let btwNummer := match btw_set with
    | [] => none
    | b :: _ => some (stripDots b)
  let url_match := inp.distance * (1 - inp.string_match)
  let url_rank0 := max (inp.max_url_score * (1 - url_match / inp.threshold_distance)) 0
  let url_rank1 :=
    if inp.suffix = "com" ∨ inp.suffix = "org" ∨ inp.suffix = "eu" then url_rank0 + 1
    else if inp.suffix = "nl" then url_rank0 + 2
    else url_rank0
  let url_rank2 :=
    if inp.subdomain = "www" then url_rank1 + 2
    else if inp.subdomain = "" then url_rank1 + 1
    else url_rank1
  { postcode_set := postcode_set
    kvk_set := kvk_set
    btw_set := btw_set
    has_postcode := pcMatch
    has_kvk_nummer := kvkMatch
    has_btw_nummer := hasBtw
    btw_nummer := btwNummer
    url_match := url_match
    url_rank := url_rank2
    ranking := ranking3 + url_rank2 }

/-- Suffix bonus of the URL-shape score: +1 for com/org/eu, +2 for nl. -/
def suffixBonus (s : String) : ℚ :=
  if s = "com" ∨ s = "org" ∨ s = "eu" then 1 else if s = "nl" then 2 else 0

/-- Subdomain bonus of the URL-shape score: +2 for www, +1 for empty. -/
def subdomainBonus (s : String) : ℚ :=
  if s = "www" then 2 else if s = "" then 1 else 0

/-- C2: URL-shape score.  For every scored pair with a non-zero distance
threshold, url_match = distance × (1 − string_match), url_rank is
max(max_url_score × (1 − url_match / threshold_distance), 0) plus the suffix
bonus (+1 for com/org/eu, +2 for nl) plus the subdomain bonus (+2 for
exactly "www", +1 for empty), and the final ranking adds this url_rank
(bonuses included) on top of the field-match bonuses. -/
theorem url_shape_score (spp : String → String) (inp : RankInput)
    (h : inp.threshold_distance ≠ 0) :
    (get_ranking spp inp).url_match = inp.distance * (1 - inp.string_match) ∧
    (get_ranking spp inp).url_rank =
      max (inp.max_url_score *
        (1 - (get_ranking spp inp).url_match / inp.threshold_distance)) 0
      + suffixBonus inp.suffix + subdomainBonus inp.subdomain ∧
    (get_ranking spp inp).ranking =
      (if (get_ranking spp inp).has_postcode then (3 : ℚ) else 0)
      + (if (get_ranking spp inp).has_kvk_nummer then (3 : ℚ) else 0)
      + (get_ranking spp inp).url_rank := by
  refine ⟨rfl, ?_, ?_⟩
  · simp only [get_ranking, suffixBonus, subdomainBonus]
    split_ifs <;> ring
  · simp only [get_ranking]
    split_ifs <;> ring

/-- Witness for url_shape_score at a concrete input. -/
theorem url_shape_score_witness :
    (2 : ℚ) ≠ 0 ∧
    (get_ranking id
      { url_analyse := none, company_postcodes := [], company_kvk_nummer := 1
        distance := 4, string_match := 1/2, threshold_distance := 2
        max_url_score := 3, suffix := "nl", subdomain := "www" }).url_match
      = 4 * (1 - 1/2) := by
  have h := url_shape_score id
    { url_analyse := none, company_postcodes := [], company_kvk_nummer := 1
      distance := 4, string_match := 1/2, threshold_distance := 2
      max_url_score := 3, suffix := "nl", subdomain := "www" }
    (by norm_num)
  exact ⟨by norm_num, h.1⟩

/-- C3: field-match bonuses.  The ranking starts at 0; exactly 3 is added
when the company's valid-postal-code set intersects the page's postal-code
set (and has_postcode is set), exactly 3 when the company's registration
number is in the page's registration-number set (and has_kvk_nummer is
set); a non-empty page tax-number set only sets has_btw_nummer and records
the first tax number, adding 0 to the ranking. -/
theorem field_match_bonuses (spp : String → String) (inp : RankInput) :
    ((get_ranking spp inp).has_postcode = true ↔
      inp.company_postcodes ≠ [] ∧
        ∃ p ∈ inp.company_postcodes, p ∈ (get_ranking spp inp).postcode_set) ∧
    ((get_ranking spp inp).has_kvk_nummer = true ↔
      inp.company_kvk_nummer ∈ (get_ranking spp inp).kvk_set) ∧
    ((get_ranking spp inp).has_btw_nummer = true ↔
      (get_ranking spp inp).btw_set ≠ []) ∧
    (get_ranking spp inp).btw_nummer =
      ((get_ranking spp inp).btw_set.head?).map stripDots ∧
    (get_ranking spp inp).ranking =
      (if (get_ranking spp inp).has_postcode then (3 : ℚ) else 0)
      + (if (get_ranking spp inp).has_kvk_nummer then (3 : ℚ) else 0)
      + 0 + (get_ranking spp inp).url_rank := by
  refine ⟨?_, ?_, ?_, ?_, ?_⟩
  · simp only [get_ranking, Bool.and_eq_true, decide_eq_true_eq, List.any_eq_true]
  · simp only [get_ranking, decide_eq_true_eq]
  · simp only [get_ranking, decide_eq_true_eq]
  · simp only [get_ranking]
    cases dedupFirst ((match inp.url_analyse with
      | some m => m.btw
      | none => []).map stripDots) <;> simp
  · simp only [get_ranking]
    split_ifs <;> ring

/-- Witness for field_match_bonuses at a concrete input: a page listing the
company's postal code and registration number. -/
theorem field_match_bonuses_witness :
    (get_ranking id
      { url_analyse := some { postcode := ["1234AB"], kvk := ["123"], btw := [] }
        company_postcodes := ["1234AB"], company_kvk_nummer := 123
        distance := 0, string_match := 1, threshold_distance := 10
        max_url_score := 3, suffix := "nl", subdomain := "www" }).has_postcode
      = true := by
  have h := field_match_bonuses id
    { url_analyse := some { postcode := ["1234AB"], kvk := ["123"], btw := [] }
      company_postcodes := ["1234AB"], company_kvk_nummer := 123
      distance := 0, string_match := 1, threshold_distance := 10
      max_url_score := 3, suffix := "nl", subdomain := "www" }
  exact h.1.mpr ⟨by simp, "1234AB", by simp, by decide⟩

/-- Row of the url_nl registry table (UrlNL), holding the last-processed
timestamp (an epoch instant, none when never processed), the parsed URL
components, and the stored comma-delimited lists of values found on the
page.  String fields mirror nullable CharFields as Option String. -/
structure UrlNL where
  url : String
  datetime : Option Int
  suffix : String
  subdomain : String
  domain : String
  bestaat : Bool
  all_psc : Option String
  all_btw : Option String
  all_kvk : Option String
deriving DecidableEq, Repr

/-- Result of tldextract.extract on a URL. -/
structure TldExtract where
  subdomain : String
  domain : String
  suffix : String
deriving DecidableEq, Repr

/-- Embedding of UrlCollection.check_if_url_needs_update (kvk_engine.py
lines 1350-1391).  older_time is the staleness window as a duration (none
when not configured; Python timedelta(0) is falsy, hence the extra zero
test), now is the current instant.  Returns the update decision together
with the (possibly updated) registry row: when an update is needed the
row's datetime, suffix, subdomain and domain are set to the current values
before any fetch occurs. -/
def check_if_url_needs_update (older_time : Option Int) (now : Int)
    (url_nl : UrlNL) (url_extract : TldExtract) : Bool × UrlNL :=
  let url_needs_update :=
    match url_nl.datetime, older_time with
    | some t, some d =>
      if d = 0 then true
      else if now - t < d then false else true
    | _, _ => true
  if url_needs_update then
    (true, { url_nl with
        datetime := some now
        suffix := url_extract.suffix
        subdomain := url_extract.subdomain
        domain := url_extract.domain })
  else
    (false, url_nl)

/-- Comma-splitting of a stored delimited field, modelling
value.split(",") guarded by the None/empty-string test of
scrape_url_and_store_in_tables; an absent or empty field leaves the match
list empty (the initial state of the UrlSearchStrings matches dict). -/
def split_stored (v : Option String) : List String :=
  match v with
  | some s => if s = "" then [] else s.splitOn ","
  | none => []

/-- Page analysis result: whether the page exists and the per-field match
lists. -/
structure UrlAnalyse where
  page_exists : Bool
  matchLists : UrlMatches
deriving DecidableEq, Repr

/-- Embedding of the analysis-result part of
UrlCollection.scrape_url_and_store_in_tables (kvk_engine.py lines
1393-1441).  When the registry entry needs updating the result is the live
fetch's outcome (the external UrlSearchStrings capability, passed in as the
fetch parameter; its side effects on the registry row's social-media,
e-commerce and ssl fields are outside the data modelled here).  When it
does not need updating, the live fetch is skipped: the page is assumed to
exist and the stored delimited lists all_psc/all_btw/all_kvk are split back
into the match lists. -/
def scrape_url_and_store_in_tables (url_needs_update : Bool) (url_nl : UrlNL)
    (fetch : UrlAnalyse) : UrlAnalyse :=
  if url_needs_update then fetch
  else
    { page_exists := true
      matchLists :=
        { postcode := split_stored url_nl.all_psc
          btw := split_stored url_nl.all_btw
          kvk := split_stored url_nl.all_kvk } }

/-- C4: staleness policy.  With a prior timestamp and a configured
(positive) staleness window the entry needs updating exactly when the
elapsed time is not less than the window; with no prior timestamp it always
needs updating; whenever it needs updating, the registry row's datetime,
suffix, subdomain and domain are set to the current values (the decision
runs before scrape_url_and_store_in_tables, so before any fetch); whenever
it does not, the row is untouched, the fetch result is ignored, and the
analysis is reconstructed from the stored delimited lists with the page
assumed to exist. -/
theorem staleness_policy (now : Int) (e : UrlNL) (cur : TldExtract) :
    (∀ t d, e.datetime = some t → 0 < d →
      (check_if_url_needs_update (some d) now e cur).1 = decide (d ≤ now - t)) ∧
    (∀ w, e.datetime = none →
      (check_if_url_needs_update w now e cur).1 = true) ∧
    (∀ w, (check_if_url_needs_update w now e cur).1 = true →
      (check_if_url_needs_update w now e cur).2 =
        { e with datetime := some now, suffix := cur.suffix
                 subdomain := cur.subdomain, domain := cur.domain }) ∧
    (∀ w, (check_if_url_needs_update w now e cur).1 = false →
      (check_if_url_needs_update w now e cur).2 = e ∧
      ∀ fetch fetch2 : UrlAnalyse,
        scrape_url_and_store_in_tables false e fetch =
          scrape_url_and_store_in_tables false e fetch2 ∧
        scrape_url_and_store_in_tables false e fetch =
          { page_exists := true
            matchLists :=
              { postcode := split_stored e.all_psc
                btw := split_stored e.all_btw
                kvk := split_stored e.all_kvk } }) := by
  refine ⟨?_, ?_, ?_, ?_⟩
  · intro t d ht hd
    simp only [check_if_url_needs_update, ht]
    have hd0 : ¬ d = 0 := by omega
    by_cases hlt : now - t < d
    · have hle : ¬ d ≤ now - t := by omega
      simp [hd0, hlt, hle]
    · have hle : d ≤ now - t := by omega
      simp [hd0, hlt, hle]
  · intro w hnone
    cases w <;> simp [check_if_url_needs_update, hnone]
  · intro w h1
    simp only [check_if_url_needs_update] at h1 ⊢
    split at h1 <;> simp_all
  · intro w h1
    simp only [check_if_url_needs_update] at h1 ⊢
    constructor
    · split at h1 <;> simp_all
    · intro fetch fetch2
      exact ⟨rfl, rfl⟩

/-- Witness for staleness_policy: an entry last processed 1 hour (3600 s)
ago is not updated under a 2-hour window and is updated under a 30-minute
window. -/
theorem staleness_policy_witness :
    (check_if_url_needs_update (some 7200) 3600
      { url := "www.example.nl", datetime := some 0, suffix := "nl"
        subdomain := "www", domain := "example", bestaat := true
        all_psc := some "1234AB", all_btw := none, all_kvk := none }
      { subdomain := "www", domain := "example", suffix := "nl" }).1 = false ∧
    (check_if_url_needs_update (some 1800) 3600
      { url := "www.example.nl", datetime := some 0, suffix := "nl"
        subdomain := "www", domain := "example", bestaat := true
        all_psc := some "1234AB", all_btw := none, all_kvk := none }
      { subdomain := "www", domain := "example", suffix := "nl" }).1 = true := by
  have h1 := (staleness_policy 3600
    { url := "www.example.nl", datetime := some 0, suffix := "nl"
      subdomain := "www", domain := "example", bestaat := true
      all_psc := some "1234AB", all_btw := none, all_kvk := none }
    { subdomain := "www", domain := "example", suffix := "nl" }).1
    0 7200 rfl (by norm_num)
  have h2 := (staleness_policy 3600
    { url := "www.example.nl", datetime := some 0, suffix := "nl"
      subdomain := "www", domain := "example", bestaat := true
      all_psc := some "1234AB", all_btw := none, all_kvk := none }
    { subdomain := "www", domain := "example", suffix := "nl" }).1
    0 1800 rfl (by norm_num)
  refine ⟨?_, ?_⟩
  · rw [h1]; decide
  · rw [h2]; decide

/-- Chunk size used by KvKUrlParser.get_kvk_list_per_process
(kvk_engine.py line 336): int(n_kvk / number_of_processes) +
n_kvk % number_of_processes. -/
def n_per_proc (n_kvk w : ℕ) : ℕ := n_kvk / w + n_kvk % w

/-- Contiguous slices of the ordered to-process list assigned to the w
workers (kvk_engine.py lines 340-344): worker i gets the Python slice
kvk_to_process[i*p:(i+1)*p], the last worker gets kvk_to_process[i*p:]. -/
def kvk_chunks (l : List ℕ) (w : ℕ) : List (List ℕ) :=
  let p := n_per_proc l.length w
  (List.range w).map (fun i =>
    if i = w - 1 then l.drop (i * p) else (l.drop (i * p)).take p)

/-- First and last element of one worker's chunk; an empty chunk raises
IndexError in the source (kvk_engine.py lines 346-353) and records no
sub-range. -/
def chunk_range (c : List ℕ) : Option (ℕ × ℕ) :=
  match c.head?, c.getLast? with
  | some a, some b => some (a, b)
  | _, _ => none

/-- List of recorded (start, stop) sub-ranges, one per non-empty chunk
(kvk_engine.py lines 338-353). -/
def kvk_ranges (l : List ℕ) (w : ℕ) : List (ℕ × ℕ) :=
  (kvk_chunks l w).filterMap chunk_range

theorem join_take_chunks (l : List ℕ) (p : ℕ) :
    ∀ k : ℕ,
      ((List.range k).map (fun i => (l.drop (i * p)).take p)).flatten
        ++ l.drop (k * p) = l := by
  intro k
  induction k with
  | zero => simp
  | succ k ih =>
    rw [List.range_succ, List.map_append, List.flatten_append]
    simp only [List.map_cons, List.map_nil, List.flatten_cons, List.flatten_nil,
      List.append_nil]
    rw [List.append_assoc]
    have hdrop : l.drop ((k + 1) * p) = (l.drop (k * p)).drop p := by
      rw [List.drop_drop]
      ring_nf
    rw [hdrop, List.take_append_drop]
    exact ih

/-- Concatenating all chunks in worker order recovers the full list: the
chunks are contiguous, non-overlapping and cover every entry by position. -/
theorem kvk_chunks_join (l : List ℕ) (w : ℕ) (hw : 1 ≤ w) :
    (kvk_chunks l w).flatten = l := by
  obtain ⟨k, rfl⟩ : ∃ k, w = k + 1 := ⟨w - 1, by omega⟩
  simp only [kvk_chunks, Nat.add_sub_cancel]
  rw [List.range_succ, List.map_append, List.flatten_append]
  have hne : ∀ i ∈ List.range k, ¬ i = k := fun i hi =>
    Nat.ne_of_lt (List.mem_range.mp hi)
  rw [List.map_congr_left (fun i hi => if_neg (hne i hi))]
  simp only [List.map_cons, List.map_nil, List.flatten_cons, List.flatten_nil,
    List.append_nil, if_pos rfl]
  exact join_take_chunks l (n_per_proc l.length (k + 1)) k

/-- Counterexample to C5: with n_kvk = 5 qualifying numbers and w = 4
workers (n_kvk ≥ w), the chunk size is 5/4 + 5%4 = 2, the fourth chunk is
empty, and only 3 sub-ranges are recorded instead of one per worker. -/
theorem partition_counterexample :
    (5 : ℕ) ≥ 4 ∧
    kvk_chunks [1, 2, 3, 4, 5] 4 = [[1, 2], [3, 4], [5], []] ∧
    kvk_ranges [1, 2, 3, 4, 5] 4 = [(1, 2), (3, 4), (5, 5)] ∧
    (kvk_ranges [1, 2, 3, 4, 5] 4).length ≠ 4 := by
  refine ⟨by norm_num, by decide, by decide, by decide⟩

/-- C5 amended: splitting the ordered list gives the w workers contiguous,
non-overlapping slices whose concatenation is the whole list (every entry
is covered by position); each non-final slice has size
n_kvk / w + n_kvk % w and the final slice takes whatever remains, which can
be smaller or even empty, so a (first, last) sub-range is recorded only for
each non-empty slice and fewer than w sub-ranges can be recorded. -/
theorem partition_amended (l : List ℕ) (w : ℕ) (hw : 1 ≤ w) :
    (kvk_chunks l w).length = w ∧
    (kvk_chunks l w).flatten = l ∧
    (∀ i : ℕ, i + 1 < w →
      (kvk_chunks l w).getD i [] =
        (l.drop (i * n_per_proc l.length w)).take (n_per_proc l.length w)) ∧
    (kvk_ranges l w).length ≤ w ∧
    (∀ pr ∈ kvk_ranges l w, ∃ c ∈ kvk_chunks l w,
      c.head? = some pr.1 ∧ c.getLast? = some pr.2) := by
  refine ⟨by simp [kvk_chunks], kvk_chunks_join l w hw, ?_, ?_, ?_⟩
  · intro i hi
    simp only [kvk_chunks]
    rw [List.getD_eq_getElem?_getD, List.getElem?_map,
      List.getElem?_range (by omega : i < w)]
    simp only [Option.map_some', Option.getD_some]
    rw [if_neg (by omega : ¬ i = w - 1)]
  · calc (kvk_ranges l w).length ≤ (kvk_chunks l w).length :=
          List.length_filterMap_le _ _
      _ = w := by simp [kvk_chunks]
  · intro pr hpr
    obtain ⟨c, hc, hcr⟩ := List.mem_filterMap.mp hpr
    refine ⟨c, hc, ?_⟩
    unfold chunk_range at hcr
    cases hh : c.head? with
    | none =>
      rw [hh] at hcr
      cases c.getLast? <;> simp at hcr
    | some a =>
      cases hl : c.getLast? with
      | none => rw [hh, hl] at hcr; simp at hcr
      | some b =>
        rw [hh, hl] at hcr
        have hpr2 : (a, b) = pr := by simpa using hcr
        rw [← hpr2]
        exact ⟨rfl, rfl⟩

/-- Witness for partition_amended: two workers over four numbers get two
chunks of size 2 (= 4/2 + 4%2) whose concatenation is the full list. -/
theorem partition_amended_witness :
    (1 : ℕ) ≤ 2 ∧ (kvk_chunks [10, 20, 30, 40] 2).flatten = [10, 20, 30, 40] := by
  exact ⟨by norm_num, (partition_amended [10, 20, 30, 40] 2 (by norm_num)).2.1⟩

/-- Row of the web_df candidate data frame (one per candidate Website row,
columns WEB_DF_COLS; the column-name constants come from the wildcard
model import whose source file is outside the analyzed snapshot, the
column set is the positional write of kvk_engine.py lines 1604-1615).
Rows of candidates whose page does not exist get only the EXISTS column
set (line 1528); their numeric cells stay NaN, hence Option fields, and
NaN boolean cells act as false in the pandas mask logic.  The url_match
column holds distance × (1 − string_match), the tie-break value named by
the DISTANCE_STRING_MATCH sort key of get_best_matching_web_site. -/
structure WebRow where
  url : String
  bestaat : Bool
  distance : Option ℚ
  string_match : Option ℚ
  url_match : ℚ
  url_rank : ℚ
  has_postcode : Bool
  has_kvk_nr : Bool
  subdomain : String
  domain : String
  suffix : String
  ranking : ℚ
deriving DecidableEq, Repr

/-- Row of the Company table (kvk_engine.py schema usage): the chosen url,
the worker id marking the row processed, the winning ranking and the
processing timestamp are all nullable until a match is committed. -/
structure Company where
  kvk_nummer : Int
  naam : String
  url : Option String
  core_id : Option Int
  ranking : Option ℚ
  datetime : Option Int
deriving DecidableEq, Repr

/-- Embedding of CompanyUrlMatch.find_match_for_company (kvk_engine.py
lines 1201-1230) restricted to its effect on the Company row.  web_df is
None when no candidate produced a distance (line 1621); taking the first
row of an empty frame raises an uncaught IndexError, modelled as an error
value.  On success the company's url, core_id (the worker index), ranking
and datetime are set from the winning row and the current time. -/
def find_match_for_company (web_df : Option (List WebRow)) (c : Company)
    (i_proc : Int) (now : Int) : Except String Company :=
  match web_df with
  | none => Except.ok c
  | some rows =>
    match rows.head? with
    | none => Except.error "IndexError: empty best-match frame"
    | some best =>
      Except.ok { c with
        url := some best.url
        core_id := some i_proc
        ranking := some best.ranking
        datetime := some now }

/-- C6: an empty shortlist leaves the company unmatched.  When the
candidate collection produced no qualifying row (no frame at all, or an
empty frame), the coordinator never writes the company row: any company
value it returns is the unchanged input, so url, core_id, ranking and
datetime keep their old values and the company stays eligible for
reprocessing.  With no frame the company is returned untouched; with an
empty frame the coordinator fails before writing anything. -/
theorem empty_shortlist_leaves_unmatched (web_df : Option (List WebRow))
    (c : Company) (i_proc now : Int)
    (h : web_df = none ∨ web_df = some []) :
    (∀ c2, find_match_for_company web_df c i_proc now = Except.ok c2 → c2 = c) ∧
    (web_df = none → find_match_for_company web_df c i_proc now = Except.ok c) ∧
    (web_df = some [] →
      find_match_for_company web_df c i_proc now =
        Except.error "IndexError: empty best-match frame") := by
  rcases h with rfl | rfl
  · refine ⟨?_, fun _ => rfl, (fun h2 => by simp at h2)⟩
    intro c2 h2
    have h3 := h2
    simp only [find_match_for_company, Except.ok.injEq] at h3
    exact h3.symm
  · refine ⟨?_, (fun h2 => by simp at h2), fun _ => rfl⟩
    intro c2 h2
    simp only [find_match_for_company, List.head?_nil] at h2
    exact Except.noConfusion h2

/-- Witness for empty_shortlist_leaves_unmatched: a concrete unprocessed
company with no candidate frame is returned unchanged. -/
theorem empty_shortlist_leaves_unmatched_witness :
    ((none : Option (List WebRow)) = none ∨
      (none : Option (List WebRow)) = some []) ∧
    find_match_for_company none
      { kvk_nummer := 1, naam := "acme", url := none, core_id := none
        ranking := none, datetime := none } 0 0 =
      Except.ok
        { kvk_nummer := 1, naam := "acme", url := none, core_id := none
          ranking := none, datetime := none } := by
  refine ⟨Or.inl rfl, ?_⟩
  exact (empty_shortlist_leaves_unmatched none
    { kvk_nummer := 1, naam := "acme", url := none, core_id := none
      ranking := none, datetime := none } 0 0 (Or.inl rfl)).2.1 rfl

/-- Row of the freshly loaded URL extract (registration number, company
name, candidate URL). -/
structure UrlRow where
  kvk : Int
  naam : String
  url : String
deriving DecidableEq, Repr

/-- Number of occurrences of a URL in the table, modelling
urls.groupby(URL_KEY)[URL_KEY].transform("count") evaluated on one row. -/
def urlCount (rows : List UrlRow) (u : String) : ℕ :=
  rows.countP (fun r => r.url = u)

/-- Index key used by remove_spurious_urls: the (registration number, URL)
pair. -/
def rowKey (r : UrlRow) : Int × String := (r.kvk, r.url)

/-- Ordering of the (kvk_nummer, url) index used by sort_index. -/
def urlRowLe (a b : UrlRow) : Prop :=
  a.kvk < b.kvk ∨ (a.kvk = b.kvk ∧ (a.url < b.url ∨ a.url = b.url))

instance : DecidableRel urlRowLe := fun a b => by
  unfold urlRowLe
  infer_instance

/-- Removal of later rows carrying an already-seen (kvk_nummer, url) key,
modelling urls[~urls.index.duplicated()] (keep the first occurrence). -/
def dropDuplicatedIndex : List UrlRow → List UrlRow
  | [] => []
  | r :: rest =>
    r :: (dropDuplicatedIndex rest).filter (fun x => rowKey x ≠ rowKey r)

/-- Embedding of KvKUrlParser.remove_spurious_urls (kvk_engine.py lines
777-798): keep only rows whose URL occurs strictly less than the
n_count_threshold times in the original table, sort by the
(kvk_nummer, url) index, and drop duplicated index entries. -/
def remove_spurious_urls (thr : ℕ) (rows : List UrlRow) : List UrlRow :=
  let kept := rows.filter (fun r => urlCount rows r.url < thr)
  dropDuplicatedIndex (List.insertionSort urlRowLe kept)

theorem mem_of_mem_dropDuplicatedIndex (x : UrlRow) :
    ∀ l, x ∈ dropDuplicatedIndex l → x ∈ l := by
  intro l
  induction l with
  | nil => simp [dropDuplicatedIndex]
  | cons r rest ih =>
    simp only [dropDuplicatedIndex, List.mem_cons, List.mem_filter]
    rintro (rfl | ⟨hx, _⟩)
    · exact Or.inl rfl
    · exact Or.inr (ih hx)

theorem key_mem_dropDuplicatedIndex (x : UrlRow) :
    ∀ l, x ∈ l → ∃ y ∈ dropDuplicatedIndex l, rowKey y = rowKey x := by
  intro l
  induction l with
  | nil => simp
  | cons r rest ih =>
    intro hx
    rcases List.mem_cons.mp hx with rfl | hx2
    · refine ⟨x, ?_, rfl⟩
      simp [dropDuplicatedIndex]
    · by_cases hk : rowKey x = rowKey r
      · refine ⟨r, ?_, hk.symm⟩
        simp [dropDuplicatedIndex]
      · obtain ⟨y, hy, hyk⟩ := ih hx2
        refine ⟨y, List.mem_cons.mpr (Or.inr ?_), hyk⟩
        exact List.mem_filter.mpr ⟨hy, by simp [hyk, hk]⟩

theorem pairwise_dropDuplicatedIndex :
    ∀ l, (dropDuplicatedIndex l).Pairwise (fun a b => rowKey a ≠ rowKey b) := by
  intro l
  induction l with
  | nil => simp [dropDuplicatedIndex]
  | cons r rest ih =>
    simp only [dropDuplicatedIndex]
    refine List.Pairwise.cons ?_ (ih.filter _)
    intro y hy
    have := (List.mem_filter.mp hy).2
    simp only [ne_eq, decide_not, Bool.not_eq_eq_eq_not, Bool.not_true,
      decide_eq_false_iff_not] at this
    exact fun hr => this hr.symm

/-- C7: spurious-URL removal.  Every surviving row comes from the input and
its URL occurs strictly below the occurrence threshold in the original
table (so every row whose URL occurs at or above the threshold is removed);
every below-threshold (registration number, URL) pair of the input is still
represented; and afterwards at most one row survives per
(registration number, URL) pair. -/
theorem spurious_url_removal (thr : ℕ) (rows : List UrlRow) :
    (∀ r ∈ remove_spurious_urls thr rows,
      r ∈ rows ∧ urlCount rows r.url < thr) ∧
    (∀ r ∈ rows, urlCount rows r.url < thr →
      ∃ y ∈ remove_spurious_urls thr rows, rowKey y = rowKey r) ∧
    (remove_spurious_urls thr rows).Pairwise
      (fun a b => rowKey a ≠ rowKey b) := by
  refine ⟨?_, ?_, pairwise_dropDuplicatedIndex _⟩
  · intro r hr
    have hsorted := mem_of_mem_dropDuplicatedIndex r _ hr
    have hkept : r ∈ rows.filter (fun r => urlCount rows r.url < thr) :=
      ((List.perm_insertionSort urlRowLe _).mem_iff).mp hsorted
    have := List.mem_filter.mp hkept
    exact ⟨this.1, by simpa using this.2⟩
  · intro r hr hcnt
    have hkept : r ∈ rows.filter (fun r => urlCount rows r.url < thr) :=
      List.mem_filter.mpr ⟨hr, by simpa using hcnt⟩
    have hsorted : r ∈ List.insertionSort urlRowLe
        (rows.filter (fun r => urlCount rows r.url < thr)) :=
      ((List.perm_insertionSort urlRowLe _).mem_iff).mpr hkept
    exact key_mem_dropDuplicatedIndex r _ hsorted

/-- Witness for spurious_url_removal: with threshold 2, the duplicated URL
is removed entirely and the unique one is kept. -/
theorem spurious_url_removal_witness :
    remove_spurious_urls 2
      [ { kvk := 1, naam := "a", url := "www.spam.nl" }
      , { kvk := 2, naam := "b", url := "www.spam.nl" }
      , { kvk := 1, naam := "a", url := "www.acme.nl" } ]
      = [ { kvk := 1, naam := "a", url := "www.acme.nl" } ] ∧
    ({ kvk := 1, naam := "a", url := "www.acme.nl" } : UrlRow) ∈
      [ ({ kvk := 1, naam := "a", url := "www.spam.nl" } : UrlRow)
      , { kvk := 2, naam := "b", url := "www.spam.nl" }
      , { kvk := 1, naam := "a", url := "www.acme.nl" } ] := by
  refine ⟨by decide, ?_⟩
  have h := (spurious_url_removal 2
    [ { kvk := 1, naam := "a", url := "www.spam.nl" }
    , { kvk := 2, naam := "b", url := "www.spam.nl" }
    , { kvk := 1, naam := "a", url := "www.acme.nl" } ]).1
    { kvk := 1, naam := "a", url := "www.acme.nl" } (by decide)
  exact h.1

/-- Outcome of one iterated row of the main matching loop: the row was
skipped as already processed, matched (possibly updating the company), or
hit a database-level error that was caught and logged as a warning. -/
inductive Outcome where
  | skipped
  | matched (c : Company)
  | dbError (msg : String)
deriving DecidableEq, Repr

/-- Embedding of the iteration of KvKUrlParser.find_best_matching_url
(kvk_engine.py lines 524-570): enumerate the queried companies with a
counter that advances on every iterated row; break when the counter equals
the maximum-entries cap or when the stop sentinel is seen (the stop
parameter models os.path.exists of the stop file at that iteration); skip
rows already processed unless force_process; otherwise run the per-company
match (the matchOne parameter models CompanyUrlMatch, whose
pw.DatabaseError is caught and logged).  The result records every iterated
row with its counter value and outcome. -/
def find_best_matching_url_loop (max_entries : Option ℕ) (force : Bool)
    (stop : ℕ → Bool) (matchOne : Company → Except String Company) :
    ℕ → List Company → List (ℕ × Outcome)
  | _, [] => []
  | cnt, c :: rest =>
    if max_entries = some cnt then []
    else if stop cnt then []
    else
      let outcome :=
        if c.core_id ≠ none ∧ force = false then Outcome.skipped
        else
          match matchOne c with
          | Except.ok c2 => Outcome.matched c2
          | Except.error e => Outcome.dbError e
      (cnt, outcome) ::
        find_best_matching_url_loop max_entries force stop matchOne
          (cnt + 1) rest

/-- Number of rows of the loop output that were actually matched. -/
def countMatched (out : List (ℕ × Outcome)) : ℕ :=
  out.countP (fun p =>
    match p.2 with
    | Outcome.matched _ => true
    | _ => false)

/-- C8: per-company error containment.  When the per-company match of a
non-skipped company raises a database-level error and neither the
maximum-entries cap nor the stop sentinel fires, the loop records the error
as a logged-warning outcome for that row and continues with the remaining
companies exactly as it would after a success, instead of aborting. -/
theorem per_company_error_containment (max_entries : Option ℕ) (force : Bool)
    (stop : ℕ → Bool) (matchOne : Company → Except String Company)
    (cnt : ℕ) (c : Company) (rest : List Company) (e : String)
    (hcap : max_entries ≠ some cnt) (hstop : stop cnt = false)
    (hskip : force = true ∨ c.core_id = none)
    (herr : matchOne c = Except.error e) :
    find_best_matching_url_loop max_entries force stop matchOne cnt (c :: rest)
      = (cnt, Outcome.dbError e) ::
        find_best_matching_url_loop max_entries force stop matchOne
          (cnt + 1) rest := by
  rw [find_best_matching_url_loop]
  rw [if_neg hcap, if_neg (by simp [hstop])]
  have hnotskip : ¬ (c.core_id ≠ none ∧ force = false) := by
    rcases hskip with hf | hcore
    · simp [hf]
    · simp [hcore]
  rw [if_neg hnotskip, herr]

/-- Witness for per_company_error_containment: a failing company followed
by a healthy one; the error row is logged and the next company is still
matched. -/
theorem per_company_error_containment_witness :
    (none : Option ℕ) ≠ some 0 ∧
    find_best_matching_url_loop none false (fun _ => false)
      (fun c => if c.kvk_nummer = 1 then Except.error "db locked"
                else Except.ok c)
      0
      [ { kvk_nummer := 1, naam := "bad", url := none, core_id := none
          ranking := none, datetime := none }
      , { kvk_nummer := 2, naam := "good", url := none, core_id := none
          ranking := none, datetime := none } ]
      = [ (0, Outcome.dbError "db locked")
        , (1, Outcome.matched
            { kvk_nummer := 2, naam := "good", url := none, core_id := none
              ranking := none, datetime := none }) ] := by
  refine ⟨by simp, ?_⟩
  rw [per_company_error_containment none false (fun _ => false) _ 0 _ _
    "db locked" (by simp) rfl (Or.inr rfl) rfl]
  decide

theorem loop_length_le (max_entries : ℕ) (force : Bool) (stop : ℕ → Bool)
    (matchOne : Company → Except String Company) :
    ∀ (cs : List Company) (cnt : ℕ), cnt ≤ max_entries →
      (find_best_matching_url_loop (some max_entries) force stop matchOne
        cnt cs).length ≤ max_entries - cnt := by
  intro cs
  induction cs with
  | nil => intro cnt _; simp [find_best_matching_url_loop]
  | cons c rest ih =>
    intro cnt hle
    rw [find_best_matching_url_loop]
    by_cases hcap : cnt = max_entries
    · rw [if_pos (by rw [hcap])]
      simp
    · rw [if_neg (by simpa using Ne.symm hcap)]
      by_cases hstop : stop cnt
      · rw [if_pos hstop]
        simp
      · rw [if_neg hstop]
        simp only [List.length_cons]
        have := ih (cnt + 1) (by omega)
        omega

/-- C10: the maximum-entries cap counts every iterated row, including rows
skipped because they are already processed.  With maximum_entries = m and
force_process disabled the loop iterates at most m rows in total, and the
number of companies actually matched can be strictly smaller than m: a run
over m already-processed companies iterates m rows and matches none. -/
theorem maximum_entries_counts_skipped (m : ℕ) :
    (∀ (stop : ℕ → Bool) (matchOne : Company → Except String Company)
      (cs : List Company),
      (find_best_matching_url_loop (some m) false stop matchOne 0 cs).length
        ≤ m) ∧
    (1 ≤ m →
      ∃ (stop : ℕ → Bool) (matchOne : Company → Except String Company)
        (cs : List Company),
        (find_best_matching_url_loop (some m) false stop matchOne 0 cs).length
          = m ∧
        countMatched
          (find_best_matching_url_loop (some m) false stop matchOne 0 cs)
          < m) := by
  constructor
  · intro stop matchOne cs
    have := loop_length_le m false stop matchOne cs 0 (by omega)
    omega
  · intro hm
    classical
    refine ⟨fun _ => false, fun c => Except.ok c,
      List.replicate m
        { kvk_nummer := 0, naam := "done", url := none, core_id := some 0
          ranking := none, datetime := none }, ?_⟩
    have key : ∀ (k cnt : ℕ), cnt + k ≤ m →
        find_best_matching_url_loop (some m) false (fun _ => false)
          (fun c => Except.ok c) cnt
          (List.replicate k
            { kvk_nummer := 0, naam := "done", url := none, core_id := some 0
              ranking := none, datetime := none })
          = (List.range k).map (fun i => (cnt + i, Outcome.skipped)) := by
      intro k
      induction k with
      | zero => intro cnt _; simp [find_best_matching_url_loop]
      | succ k ih =>
        intro cnt hle
        rw [List.replicate_succ, find_best_matching_url_loop]
        rw [if_neg (by simp; omega), if_neg (by simp)]
        rw [if_pos (by simp)]
        rw [ih (cnt + 1) (by omega)]
        rw [List.range_succ_eq_map]
        simp only [List.map_cons, List.map_map, Nat.add_zero]
        refine congrArg₂ List.cons rfl ?_
        refine List.map_congr_left ?_
        intro i _
        simp only [Function.comp_apply, Nat.succ_eq_add_one]
        have h2 : cnt + 1 + i = cnt + (i + 1) := by omega
        rw [h2]
    have hm0 : (0 : ℕ) + m ≤ m := by omega
    rw [key m 0 hm0]
    constructor
    · simp
    · have : countMatched
          ((List.range m).map (fun i => (0 + i, Outcome.skipped))) = 0 := by
        simp [countMatched, List.countP_eq_zero]
      omega

/-- Witness for maximum_entries_counts_skipped: with a cap of 2 and three
fresh companies only two rows are iterated. -/
theorem maximum_entries_counts_skipped_witness :
    (find_best_matching_url_loop (some 2) false (fun _ => false)
      (fun c => Except.ok c) 0
      [ { kvk_nummer := 1, naam := "a", url := none, core_id := none
          ranking := none, datetime := none }
      , { kvk_nummer := 2, naam := "b", url := none, core_id := none
          ranking := none, datetime := none }
      , { kvk_nummer := 3, naam := "c", url := none, core_id := none
          ranking := none, datetime := none } ]).length ≤ 2 := by
  exact (maximum_entries_counts_skipped 2).1 (fun _ => false)
    (fun c => Except.ok c) _

/-- Minimum of the distance column, modelling web_df[DISTANCE_KEY].min()
(pandas skips NaN cells, so only rows with a distance participate; the
result is none when no row has one). -/
def minDistance (df : List WebRow) : Option ℚ :=
  (df.filterMap (fun r => r.distance)).foldl
    (fun acc d =>
      match acc with
      | none => some d
      | some m => some (min m d)) none

/-- Distance admissibility mask m1 of get_best_matching_web_site
(kvk_engine.py lines 1641-1646): with a configured threshold a row passes
when its distance is within the threshold of the column minimum (a NaN
distance compares false); with no threshold the mask falls back to the
exists column. -/
def distanceMask (threshold_distance : Option ℚ) (df : List WebRow)
    (r : WebRow) : Bool :=
  match threshold_distance with
  | some td =>
    match r.distance, minDistance df with
    | some d, some m => decide (d - m ≤ td)
    | _, _ => false
  | none => r.bestaat

/-- String-match admissibility mask m2 (kvk_engine.py lines 1649-1652). -/
def stringMatchMask (threshold_string_match : Option ℚ) (r : WebRow) : Bool :=
  match threshold_string_match with
  | some ts =>
    match r.string_match with
    | some sm => decide (ts ≤ sm)
    | none => false
  | none => r.bestaat

/-- Final keep mask (kvk_engine.py line 1660): exists AND
(m1 OR m2 OR has_postcode OR has_kvk_nr). -/
def keepMask (td ts : Option ℚ) (df : List WebRow) (r : WebRow) : Bool :=
  r.bestaat &&
    (distanceMask td df r || stringMatchMask ts r ||
      r.has_postcode || r.has_kvk_nr)

/-- Sort order of the shortlist (kvk_engine.py lines 1665-1666):
descending by ranking, ties broken descending by the url_match
(distance × (1 − string_match)) tie-break column. -/
def webOrder (a b : WebRow) : Prop :=
  b.ranking < a.ranking ∨ (a.ranking = b.ranking ∧ b.url_match ≤ a.url_match)

instance (a b : WebRow) : Decidable (webOrder a b) :=
  inferInstanceAs (Decidable (Or _ _))

theorem webOrder_refl (a : WebRow) : webOrder a a :=
  Or.inr ⟨rfl, le_refl _⟩

instance : IsTotal WebRow webOrder := by
  constructor
  intro a b
  rcases lt_trichotomy a.ranking b.ranking with hlt | heq | hgt
  · exact Or.inr (Or.inl hlt)
  · rcases le_total a.url_match b.url_match with hle | hle
    · exact Or.inr (Or.inr ⟨heq.symm, hle⟩)
    · exact Or.inl (Or.inr ⟨heq, hle⟩)
  · exact Or.inl (Or.inl hgt)

instance : IsTrans WebRow webOrder := by
  constructor
  intro a b c hab hbc
  rcases hab with hab | ⟨hab1, hab2⟩
  · rcases hbc with hbc | ⟨hbc1, hbc2⟩
    · exact Or.inl (lt_trans hbc hab)
    · exact Or.inl (hbc1 ▸ hab)
  · rcases hbc with hbc | ⟨hbc1, hbc2⟩
    · exact Or.inl (by rw [hab1]; exact hbc)
    · exact Or.inr ⟨hab1.trans hbc1, le_trans hbc2 hab2⟩

/-- Embedding of UrlCollection.get_best_matching_web_site (kvk_engine.py
lines 1632-1667): keep the masked rows and sort them descending by
(ranking, url_match). -/
def get_best_matching_web_site (td ts : Option ℚ) (df : List WebRow) :
    List WebRow :=
  List.insertionSort webOrder (df.filter (keepMask td ts df))

theorem keepMask_eq_true_iff (td ts : ℚ) (df : List WebRow) (r : WebRow) :
    keepMask (some td) (some ts) df r = true ↔
      r.bestaat = true ∧
        ((∃ d m, r.distance = some d ∧ minDistance df = some m ∧ d - m ≤ td) ∨
         (∃ sm, r.string_match = some sm ∧ ts ≤ sm) ∨
         r.has_postcode = true ∨ r.has_kvk_nr = true) := by
  cases hd : r.distance with
  | none =>
    cases hs : r.string_match with
    | none =>
      simp [keepMask, distanceMask, stringMatchMask, hd, hs, or_assoc]
    | some sm =>
      simp [keepMask, distanceMask, stringMatchMask, hd, hs, or_assoc]
  | some d =>
    cases hm : minDistance df with
    | none =>
      cases hs : r.string_match with
      | none =>
        simp [keepMask, distanceMask, stringMatchMask, hd, hm, hs, or_assoc]
      | some sm =>
        simp [keepMask, distanceMask, stringMatchMask, hd, hm, hs, or_assoc]
    | some m =>
      cases hs : r.string_match with
      | none =>
        simp [keepMask, distanceMask, stringMatchMask, hd, hm, hs, or_assoc]
      | some sm =>
        simp [keepMask, distanceMask, stringMatchMask, hd, hm, hs, or_assoc]

/-- C1: shortlist reduction without a forced URL.  A candidate row is kept
exactly when its page exists and (its distance is within the configured
distance threshold of the minimum distance, or its string-match ratio is at
least the configured string-match threshold, or it has a matching postal
code, or it has a matching registration number); the kept rows are sorted
descending by ranking with ties broken descending by the
distance × (1 − string_match) tie-break column; and the first row of the
sorted result dominates every kept row in that order (it is the winner
handed to the coordinator). -/
theorem shortlist_reduction (td ts : ℚ) (df : List WebRow) :
    (∀ r, r ∈ get_best_matching_web_site (some td) (some ts) df ↔
      r ∈ df ∧ r.bestaat = true ∧
        ((∃ d m, r.distance = some d ∧ minDistance df = some m ∧ d - m ≤ td) ∨
         (∃ sm, r.string_match = some sm ∧ ts ≤ sm) ∨
         r.has_postcode = true ∨ r.has_kvk_nr = true)) ∧
    List.Sorted webOrder (get_best_matching_web_site (some td) (some ts) df) ∧
    (∀ r1, (get_best_matching_web_site (some td) (some ts) df).head? = some r1 →
      ∀ r2 ∈ get_best_matching_web_site (some td) (some ts) df,
        webOrder r1 r2) := by
  have hsorted : List.Sorted webOrder
      (get_best_matching_web_site (some td) (some ts) df) :=
    List.sorted_insertionSort webOrder _
  refine ⟨?_, hsorted, ?_⟩
  · intro r
    rw [get_best_matching_web_site,
      (List.perm_insertionSort webOrder _).mem_iff, List.mem_filter,
      keepMask_eq_true_iff]
  · intro r1 h1 r2 h2
    cases hlist : get_best_matching_web_site (some td) (some ts) df with
    | nil =>
      rw [hlist] at h1
      cases h1
    | cons x t =>
      rw [hlist] at h1 h2 hsorted
      have hx : x = r1 := by simpa using h1
      rcases List.mem_cons.mp h2 with hbx | hbt
      · rw [← hx, hbx]
        exact webOrder_refl x
      · rw [← hx]
        exact (List.sorted_cons.mp hsorted).1 r2 hbt

/-- Witness for shortlist_reduction: three existing candidates with
rankings 5, 8, 8 and tie-break values 2 and 4 for the two tied at 8; the
first row of the shortlist is the candidate with tie-break value 4. -/
theorem shortlist_reduction_witness :
    (get_best_matching_web_site (some 10) (some 0)
      [ { url := "www.a.nl", bestaat := true, distance := some 1
          string_match := some 1, url_match := 0, url_rank := 0
          has_postcode := false, has_kvk_nr := false, subdomain := "www"
          domain := "a", suffix := "nl", ranking := 5 }
      , { url := "www.b.nl", bestaat := true, distance := some 4
          string_match := some 1, url_match := 2, url_rank := 0
          has_postcode := false, has_kvk_nr := false, subdomain := "www"
          domain := "b", suffix := "nl", ranking := 8 }
      , { url := "www.c.nl", bestaat := true, distance := some 8
          string_match := some 1, url_match := 4, url_rank := 0
          has_postcode := false, has_kvk_nr := false, subdomain := "www"
          domain := "c", suffix := "nl", ranking := 8 } ]).head? =
      some
        { url := "www.c.nl", bestaat := true, distance := some 8
          string_match := some 1, url_match := 4, url_rank := 0
          has_postcode := false, has_kvk_nr := false, subdomain := "www"
          domain := "c", suffix := "nl", ranking := 8 } := by
  have h := shortlist_reduction 10 0
    [ { url := "www.a.nl", bestaat := true, distance := some 1
        string_match := some 1, url_match := 0, url_rank := 0
        has_postcode := false, has_kvk_nr := false, subdomain := "www"
        domain := "a", suffix := "nl", ranking := 5 }
    , { url := "www.b.nl", bestaat := true, distance := some 4
        string_match := some 1, url_match := 2, url_rank := 0
        has_postcode := false, has_kvk_nr := false, subdomain := "www"
        domain := "b", suffix := "nl", ranking := 8 }
    , { url := "www.c.nl", bestaat := true, distance := some 8
        string_match := some 1, url_match := 4, url_rank := 0
        has_postcode := false, has_kvk_nr := false, subdomain := "www"
        domain := "c", suffix := "nl", ranking := 8 } ]
  norm_num [get_best_matching_web_site, keepMask, distanceMask,
    stringMatchMask, minDistance, webOrder, List.insertionSort,
    List.orderedInsert, List.filter, List.filterMap]

/-- Python regex class \\s restricted to the characters the engine can
meet: space, tab, newline, carriage return, vertical tab, form feed. -/
def pySpace (c : Char) : Bool :=
  decide (c = ' ' ∨ c = '\t' ∨ c = '\n' ∨ c = '\r' ∨ c = '\x0b' ∨ c = '\x0c')

/-- Python regex class \\w (word character): letter, digit or underscore. -/
def pyWord (c : Char) : Bool := c.isAlphanum || c == '_'

/-- Greedy consumption of the repeated group of the legal-form regex
(one word character followed by a dot, repeated), returning the rest. -/
def dropPairs : List Char → List Char
  | c1 :: c2 :: rest =>
    if pyWord c1 && c2 == '.' then dropPairs rest else c1 :: c2 :: rest
  | l => l

/-- Test for at least one word-character-dot group at the head, the
minimum for the + repetition of the legal-form regex to match. -/
def startsPair : List Char → Bool
  | c1 :: c2 :: _ => pyWord c1 && c2 == '.'
  | _ => false

/-- Greedy consumption of the optional trailing whitespace of the
legal-form regex. -/
def dropSpaces (l : List Char) : List Char := l.dropWhile pySpace

/-- Left-to-right scan of re.sub("\\s(\\w\\.)+[\\s]*", "", s): at each
position, a whitespace character followed by at least one
word-character-dot group starts a match that swallows the whitespace, the
maximal run of groups and the maximal trailing whitespace; any other
character is kept and the scan moves on.  The fuel argument (always the
length of the list) keeps the recursion structural. -/
def sub2Go : ℕ → List Char → List Char
  | 0, l => l
  | _ + 1, [] => []
  | fuel + 1, c :: rest =>
    if pySpace c then
      if startsPair rest then sub2Go fuel (dropSpaces (dropPairs rest))
      else c :: sub2Go fuel rest
    else c :: sub2Go fuel rest

/-- Embedding of re.sub("\\s(\\w\\.)+[\\s]*", "", s) from clean_name
(kvk_engine.py line 97). -/
def sub2 (l : List Char) : List Char := sub2Go l.length l

/-- End position available to the $ anchor: before a final newline when the
string ends with one, otherwise the length of the string. -/
def logicalEnd (l : List Char) : ℕ :=
  match l.getLast? with
  | some c => if c = '\n' then l.length - 1 else l.length
  | none => 0

/-- Segment scanned by ".*\\).*$" after an opening parenthesis at
position i: everything between i and the logical end. -/
def sub3Seg (l : List Char) (i : ℕ) : List Char :=
  (l.take (logicalEnd l)).drop (i + 1)

/-- Match test for "\\(.*\\).*$" at position i: an opening parenthesis
there, no newline up to the logical end (the dot of the regex does not
match newlines), and a closing parenthesis in between. -/
def sub3Match (l : List Char) (i : ℕ) : Bool :=
  decide (l[i]? = some '(') &&
    (sub3Seg l i).all (fun c => decide (¬ c = '\n')) &&
    (sub3Seg l i).any (fun c => decide (c = ')'))

/-- Leftmost match position of "\\(.*\\).*$". -/
def firstMatch3 (l : List Char) : Option ℕ :=
  ((List.range l.length).filter (fun i => sub3Match l i)).head?

/-- Embedding of re.sub("\\(.*\\).*$", "", s) from clean_name
(kvk_engine.py line 100): remove from the leftmost matching parenthesis to
the logical end (a final newline survives, being past the $ anchor). -/
def sub3 (l : List Char) : List Char :=
  match firstMatch3 l with
  | some i => l.take i ++ l.drop (logicalEnd l)
  | none => l

/-- Embedding of re.sub("[&\"]", "", s) from clean_name (kvk_engine.py
line 103). -/
def sub4 (l : List Char) : List Char :=
  l.filter (fun c => decide (¬ (c = '&' ∨ c = '"')))

/-- Embedding of re.sub("\\s+", "", s) from clean_name (kvk_engine.py
line 106): every whitespace character disappears. -/
def sub5 (l : List Char) : List Char := l.filter (fun c => ! pySpace c)

/-- Lower-casing of one character as done by str.lower on the ASCII
range. -/
def pyLower (c : Char) : Char :=
  if 65 ≤ c.toNat ∧ c.toNat ≤ 90 then Char.ofNat (c.toNat + 32) else c

/-- Embedding of clean_name (kvk_engine.py lines 79-108) on the character
list: lower-case, strip legal-form abbreviations, strip the parenthesized
tail, strip ampersands and double quotes, remove all whitespace. -/
def cleanChars (l : List Char) : List Char :=
  sub5 (sub4 (sub3 (sub2 (l.map pyLower))))

/-- Embedding of clean_name on strings. -/
def clean_name (s : String) : String := String.mk (cleanChars s.data)

theorem dropPairs_sublist : ∀ l : List Char, (dropPairs l).Sublist l := by
  intro l
  induction l using dropPairs.induct with
  | case1 c1 c2 rest hpair ih =>
    rw [dropPairs, if_pos hpair]
    exact ih.trans ((List.sublist_cons_self c2 rest).trans
      (List.sublist_cons_self c1 (c2 :: rest)))
  | case2 c1 c2 rest hpair =>
    rw [dropPairs, if_neg hpair]
  | case3 l h =>
    rw [dropPairs.eq_def]
    split
    · simp_all
    · exact List.Sublist.refl l

theorem sub2Go_sublist : ∀ (fuel : ℕ) (l : List Char),
    (sub2Go fuel l).Sublist l := by
  intro fuel
  induction fuel with
  | zero => intro l; rw [sub2Go]
  | succ fuel ih =>
    intro l
    cases l with
    | nil => rw [sub2Go]
    | cons c rest =>
      rw [sub2Go]
      by_cases hsp : pySpace c
      · rw [if_pos hsp]
        by_cases hst : startsPair rest
        · rw [if_pos hst]
          refine ((ih _).trans ?_).trans (List.sublist_cons_self c rest)
          exact ((List.dropWhile_sublist pySpace).trans (dropPairs_sublist rest))
        · rw [if_neg hst]
          exact (ih rest).cons_cons c
      · rw [if_neg hsp]
        exact (ih rest).cons_cons c

theorem sub2_sublist (l : List Char) : (sub2 l).Sublist l :=
  sub2Go_sublist l.length l

theorem sub2Go_of_no_space : ∀ (fuel : ℕ) (l : List Char),
    (∀ c ∈ l, pySpace c = false) → sub2Go fuel l = l := by
  intro fuel
  induction fuel with
  | zero => intro l _; rw [sub2Go]
  | succ fuel ih =>
    intro l h
    cases l with
    | nil => rw [sub2Go]
    | cons c rest =>
      rw [sub2Go, if_neg (by simp [h c (List.mem_cons_self c rest)])]
      rw [ih rest (fun x hx => h x (List.mem_cons_of_mem c hx))]

theorem sub2_of_no_space (l : List Char)
    (h : ∀ c ∈ l, pySpace c = false) : sub2 l = l :=
  sub2Go_of_no_space l.length l h

theorem pair_sublist_decomp {a b : Char} :
    ∀ {l : List Char}, [a, b].Sublist l →
      ∃ l1 l2 l3, l = l1 ++ a :: (l2 ++ b :: l3) := by
  intro l
  induction l with
  | nil => intro h; cases h
  | cons c t ih =>
    intro h
    cases h with
    | cons _ h2 =>
      obtain ⟨l1, l2, l3, rfl⟩ := ih h2
      exact ⟨c :: l1, l2, l3, rfl⟩
    | cons₂ _ h2 =>
      obtain ⟨l2, l3, rfl⟩ := List.append_of_mem (List.singleton_sublist.mp h2)
      exact ⟨[], l2, l3, rfl⟩

theorem decomp_pair_sublist (a b : Char) (l1 l2 l3 : List Char) :
    [a, b].Sublist (l1 ++ a :: (l2 ++ b :: l3)) := by
  have h1 : [a, b].Sublist (a :: (l2 ++ b :: l3)) :=
    List.Sublist.cons₂ a (List.singleton_sublist.mpr
      (List.mem_append_right l2 (List.mem_cons_self b l3)))
  exact h1.trans (List.sublist_append_right l1 _)

theorem logicalEnd_of_no_newline {l : List Char} (h : ('\n' : Char) ∉ l) :
    logicalEnd l = l.length := by
  unfold logicalEnd
  cases hl : l.getLast? with
  | none =>
    have h0 : l = [] := List.getLast?_eq_none_iff.mp hl
    subst h0
    rfl
  | some c =>
    have hc : c ∈ l := List.mem_of_mem_getLast? hl
    have hne : ¬ c = '\n' := fun hc2 => h (hc2 ▸ hc)
    show (if c = '\n' then l.length - 1 else l.length) = l.length
    rw [if_neg hne]

theorem sub3Match_pair {l : List Char} {i : ℕ}
    (h : sub3Match l i = true) : ['(', ')'].Sublist l := by
  unfold sub3Match at h
  simp only [Bool.and_eq_true, decide_eq_true_eq, List.any_eq_true] at h
  obtain ⟨⟨hget, _⟩, c, hcmem, hc⟩ := h
  subst hc
  obtain ⟨hi, hgeti⟩ := List.getElem?_eq_some_iff.mp hget
  have hseg : (sub3Seg l i).Sublist (l.drop (i + 1)) := by
    unfold sub3Seg
    rw [List.drop_take]
    exact List.take_sublist _ _
  have hmem : (')' : Char) ∈ l.drop (i + 1) := hseg.mem hcmem
  have hdrop : l.drop i = '(' :: l.drop (i + 1) := by
    rw [List.drop_eq_getElem_cons hi, hgeti]
  have hpair : ['(', ')'].Sublist (l.drop i) := by
    rw [hdrop]
    exact List.Sublist.cons₂ _ (List.singleton_sublist.mpr hmem)
  exact hpair.trans (List.drop_sublist i l)

theorem sub3Match_of_decomp {l l1 l2 l3 : List Char}
    (hnl : ('\n' : Char) ∉ l)
    (hl : l = l1 ++ '(' :: (l2 ++ ')' :: l3)) :
    sub3Match l l1.length = true := by
  have hshape : l1 ++ '(' :: (l2 ++ ')' :: l3)
      = (l1 ++ ['(']) ++ (l2 ++ ')' :: l3) := by
    rw [List.append_assoc]
    rfl
  have hseg : sub3Seg l l1.length = l2 ++ ')' :: l3 := by
    unfold sub3Seg
    rw [logicalEnd_of_no_newline hnl, List.take_length]
    rw [hl, hshape, List.drop_left' (by simp)]
  unfold sub3Match
  simp only [Bool.and_eq_true, decide_eq_true_eq, List.any_eq_true,
    List.all_eq_true]
  refine ⟨⟨?_, ?_⟩, ?_⟩
  · rw [hl, List.getElem?_append_right (le_refl l1.length)]
    simp
  · intro c hc
    have hcl : c ∈ l := by
      rw [hseg] at hc
      rw [hl]
      exact List.mem_append_right l1 (List.mem_cons_of_mem _ hc)
    exact fun hceq => hnl (hceq ▸ hcl)
  · refine ⟨')', ?_, by simp⟩
    rw [hseg]
    exact List.mem_append_right l2 (List.mem_cons_self _ l3)

theorem firstMatch3_spec {l : List Char} {i : ℕ}
    (h : firstMatch3 l = some i) : sub3Match l i = true := by
  unfold firstMatch3 at h
  cases hfl : (List.range l.length).filter (fun j => sub3Match l j) with
  | nil => rw [hfl] at h; cases h
  | cons x t =>
    rw [hfl] at h
    have hx : x = i := by simpa using h
    have hmem : x ∈ (List.range l.length).filter (fun j => sub3Match l j) := by
      rw [hfl]
      exact List.mem_cons_self x t
    have := (List.mem_filter.mp hmem).2
    rw [← hx]
    simpa using this

theorem firstMatch3_min {l : List Char} {i j : ℕ}
    (h : firstMatch3 l = some i) (hj : sub3Match l j = true)
    (hjl : j < l.length) : i ≤ j := by
  unfold firstMatch3 at h
  have hjmem : j ∈ (List.range l.length).filter (fun k => sub3Match l k) :=
    List.mem_filter.mpr ⟨List.mem_range.mpr hjl, by simpa using hj⟩
  have hpw : ((List.range l.length).filter
      (fun k => sub3Match l k)).Pairwise (· < ·) :=
    (List.pairwise_lt_range l.length).filter _
  cases hfl : (List.range l.length).filter (fun k => sub3Match l k) with
  | nil => rw [hfl] at h; cases h
  | cons x t =>
    rw [hfl] at h hjmem hpw
    have hx : x = i := by simpa using h
    rcases List.mem_cons.mp hjmem with rfl | hjt
    · omega
    · have := (List.pairwise_cons.mp hpw).1 j hjt
      omega

theorem firstMatch3_none {l : List Char} (h : firstMatch3 l = none)
    {j : ℕ} (hjl : j < l.length) : sub3Match l j = false := by
  unfold firstMatch3 at h
  have hnil := List.head?_eq_none_iff.mp h
  by_contra hj
  have hjmem : j ∈ (List.range l.length).filter (fun k => sub3Match l k) :=
    List.mem_filter.mpr ⟨List.mem_range.mpr hjl,
      by simpa using Bool.not_eq_false (sub3Match l j) ▸ hj⟩
  rw [hnil] at hjmem
  cases hjmem

theorem pair_sublist_iff_match {l : List Char} (hnl : ('\n' : Char) ∉ l) :
    ['(', ')'].Sublist l ↔ ∃ i, i < l.length ∧ sub3Match l i = true := by
  constructor
  · intro h
    obtain ⟨l1, l2, l3, rfl⟩ := pair_sublist_decomp h
    refine ⟨l1.length, by simp, sub3Match_of_decomp hnl rfl⟩
  · rintro ⟨i, _, hm⟩
    exact sub3Match_pair hm

theorem sub3_noPair {l : List Char} (hnl : ('\n' : Char) ∉ l) :
    ¬ ['(', ')'].Sublist (sub3 l) := by
  unfold sub3
  cases hf : firstMatch3 l with
  | none =>
    intro hp
    obtain ⟨i, hi, hm⟩ := (pair_sublist_iff_match hnl).mp hp
    rw [firstMatch3_none hf hi] at hm
    cases hm
  | some i =>
    intro hp
    have hp2 : ['(', ')'].Sublist (l.take i ++ l.drop (logicalEnd l)) := hp
    rw [logicalEnd_of_no_newline hnl, List.drop_length,
      List.append_nil] at hp2
    obtain ⟨l1, l2, l3, hdec⟩ := pair_sublist_decomp hp2
    have hlen : l1.length + 2 ≤ i := by
      have h1 : (l.take i).length = l1.length + l2.length + l3.length + 2 := by
        rw [hdec]
        simp only [List.length_append, List.length_cons]
        omega
      have h2 : (l.take i).length ≤ i := by
        rw [List.length_take]
        omega
      omega
    have hfull : l = l1 ++ '(' :: (l2 ++ ')' :: (l3 ++ l.drop i)) := by
      have h3 : l = (l1 ++ '(' :: (l2 ++ ')' :: l3)) ++ l.drop i := by
        rw [← hdec]
        exact (List.take_append_drop i l).symm
      conv_lhs => rw [h3]
      simp
    have hm2 : sub3Match l l1.length = true :=
      sub3Match_of_decomp hnl hfull
    have hil : l1.length < l.length := by
      rw [hfull]
      simp only [List.length_append, List.length_cons]
      omega
    have := firstMatch3_min hf hm2 hil
    omega

theorem sub3_of_noPair {l : List Char} (h : ¬ ['(', ')'].Sublist l) :
    sub3 l = l := by
  unfold sub3
  cases hf : firstMatch3 l with
  | none => rfl
  | some i =>
    exact absurd (sub3Match_pair (firstMatch3_spec hf)) h

theorem sub3_sublist_of_no_newline {l : List Char}
    (hnl : ('\n' : Char) ∉ l) : (sub3 l).Sublist l := by
  unfold sub3
  cases firstMatch3 l with
  | none => exact List.Sublist.refl l
  | some i =>
    show (l.take i ++ l.drop (logicalEnd l)).Sublist l
    rw [logicalEnd_of_no_newline hnl, List.drop_length, List.append_nil]
    exact List.take_sublist i l

theorem pyLower_toNat (c : Char) (h : 65 ≤ c.toNat ∧ c.toNat ≤ 90) :
    (pyLower c).toNat = c.toNat + 32 := by
  rw [pyLower, if_pos h]
  have hv : (c.toNat + 32).isValidChar := Or.inl (by omega)
  unfold Char.ofNat
  rw [dif_pos hv]
  rfl

theorem pyLower_eq_self (c : Char) (h : ¬ (65 ≤ c.toNat ∧ c.toNat ≤ 90)) :
    pyLower c = c := by
  rw [pyLower, if_neg h]

theorem pyLower_not_upper (c : Char) :
    ¬ (65 ≤ (pyLower c).toNat ∧ (pyLower c).toNat ≤ 90) := by
  by_cases h : 65 ≤ c.toNat ∧ c.toNat ≤ 90
  · rw [pyLower_toNat c h]
    omega
  · rw [pyLower_eq_self c h]
    exact h

theorem pyLower_idem (c : Char) : pyLower (pyLower c) = pyLower c :=
  pyLower_eq_self _ (pyLower_not_upper c)

theorem pyLower_ne_newline {c : Char} (h : ¬ c = '\n') :
    ¬ pyLower c = '\n' := by
  by_cases hu : 65 ≤ c.toNat ∧ c.toNat ≤ 90
  · intro he
    have ht := pyLower_toNat c hu
    rw [he] at ht
    have h10 : ('\n' : Char).toNat = 10 := rfl
    omega
  · rw [pyLower_eq_self c hu]
    exact h

theorem cleanChars_fixpoint (w : List Char)
    (h1 : ∀ c ∈ w, pySpace c = false)
    (h2 : ∀ c ∈ w, ¬ (c = '&' ∨ c = '"'))
    (h3 : ∀ c ∈ w, pyLower c = c)
    (h4 : ¬ ['(', ')'].Sublist w) :
    cleanChars w = w := by
  unfold cleanChars
  have hmap : w.map pyLower = w := by
    have hcg := List.map_congr_left (l := w) (f := pyLower) (g := id)
      (fun c hc => h3 c hc)
    rw [hcg, List.map_id]
  rw [hmap, sub2_of_no_space w h1, sub3_of_noPair h4]
  have hs4 : sub4 w = w :=
    List.filter_eq_self.mpr (fun c hc => by simpa using h2 c hc)
  rw [hs4]
  exact List.filter_eq_self.mpr (fun c hc => by simpa using h1 c hc)

theorem cleanChars_idem (l : List Char) (hnl : ('\n' : Char) ∉ l) :
    cleanChars (cleanChars l) = cleanChars l := by
  have hnlL : ('\n' : Char) ∉ l.map pyLower := by
    intro hmem
    obtain ⟨y, hy, hyl⟩ := List.mem_map.mp hmem
    exact pyLower_ne_newline (fun he => hnl (he ▸ hy)) hyl
  have hnlt : ('\n' : Char) ∉ sub2 (l.map pyLower) := fun hm =>
    hnlL ((sub2_sublist _).mem hm)
  have hfsub : (cleanChars l).Sublist (sub3 (sub2 (l.map pyLower))) := by
    unfold cleanChars
    exact (List.filter_sublist _).trans (List.filter_sublist _)
  have hchain : (cleanChars l).Sublist (l.map pyLower) :=
    hfsub.trans ((sub3_sublist_of_no_newline hnlt).trans (sub2_sublist _))
  apply cleanChars_fixpoint
  · intro c hc
    have hc2 := hc
    unfold cleanChars sub5 at hc2
    simpa using (List.mem_filter.mp hc2).2
  · intro c hc
    have hc2 := hc
    unfold cleanChars sub5 at hc2
    have hc3 := (List.mem_filter.mp hc2).1
    unfold sub4 at hc3
    simpa using (List.mem_filter.mp hc3).2
  · intro c hc
    obtain ⟨y, _, hyl⟩ := List.mem_map.mp (hchain.mem hc)
    rw [← hyl, pyLower_idem]
  · exact fun hp => sub3_noPair hnlt (hp.trans hfsub)

/-- Counterexample to C9: clean_name is not idempotent on every string.
The dot of the parenthesis-stripping regex does not match a newline, so
cleaning "(a\nb)" leaves "(ab)" (the whitespace pass removes the newline
afterwards), and cleaning again erases everything. -/
theorem clean_name_not_idempotent :
    ¬ clean_name (clean_name "(a\nb)") = clean_name "(a\nb)" := by
  decide

/-- C9 amended: clean_name is idempotent on every string that contains no
newline character (company names in the extracts are single lines), and
clean_name "ACME B.V. (Holding) & Co." = "acme". -/
theorem clean_name_idempotent_amended :
    (∀ s : String, ('\n' : Char) ∉ s.data →
      clean_name (clean_name s) = clean_name s) ∧
    clean_name "ACME B.V. (Holding) & Co." = "acme" := by
  constructor
  · intro s h
    show String.mk (cleanChars (clean_name s).data) = String.mk (cleanChars s.data)
    have hdata : (clean_name s).data = cleanChars s.data := rfl
    rw [hdata, cleanChars_idem s.data h]
  · decide

/-- Witness for clean_name_idempotent_amended at a concrete newline-free
name. -/
theorem clean_name_idempotent_witness :
    ('\n' : Char) ∉ "Tramper Technology B.V.".data ∧
    clean_name (clean_name "Tramper Technology B.V.") =
      clean_name "Tramper Technology B.V." := by
  refine ⟨by decide, ?_⟩
  exact clean_name_idempotent_amended.1 "Tramper Technology B.V." (by decide)

end KvkEngine
